import Mathlib

/-!
Verification development for the taxonomy admin module (`src/taxonomy.py`).

The module defines a `Node` model on top of a materialized-path tree
(treebeard's `MP_Node`), a `NodeForm` mapping a flat "choose a parent" UI
onto tree operations, and admin glue (buttons, an add-child view).

We embed the module shallowly:
* a tree state is a list of node records, each carrying its materialized
  path (`path : List Nat`); a node is a root exactly when its path has
  length 1 (treebeard `is_root` is `depth == 1`);
* field validation is embedded character-by-character from the regex
  pattern `[\w][a-zA-Z &]+` anchored on both sides with `^` and `$`
  (Python `re`: `$` also matches just before one trailing newline)
  together with `MinLengthValidator(5)` and the CharField `max_length=50`;
* tree-library operations (`add_root`, `add_child`, `move(pos='sorted-child')`,
  subtree delete, `InvalidMoveToDescendant`) are embedded as path
  manipulations: sorted insertion places the new child after every sibling
  whose ordering key `(node_order_index, name)` is not greater, shifting the
  later siblings' subtrees one step up, exactly the behaviour treebeard
  provides for `node_order_by = ['node_order_index', 'name']`.
-/

/-! ### Name field validation -/

/-- Character class `[a-zA-Z &]` of the tail of `node_name_validator`. -/
def isNameTailChar (c : Char) : Bool := c.isAlpha || c == ' ' || c == '&'

/-- Python `\w` (ASCII fragment): letters, digits and underscore. -/
def isWordChar (c : Char) : Bool := c.isAlpha || c.isDigit || c == '_'

/-- Core of the regex `[\w][a-zA-Z &]+` matched against a whole string:
a word character followed by at least one character from `[a-zA-Z &]`. -/
def nameRegexCore : List Char → Bool
  | [] => false
  | c :: rest => isWordChar c && !rest.isEmpty && rest.all isNameTailChar

/-- `node_name_validator`: `re.search` of the pattern anchored by `^` and `$`.
In Python `$` matches at the end of the string or just before a single
trailing newline, so both alternatives appear. -/
def node_name_regex_match (s : String) : Bool :=
  nameRegexCore s.data ||
    (s.data.getLast? == some '\n' && nameRegexCore s.data.dropLast)

/-- Full field validation of `Node.name`: the regex validator,
`MinLengthValidator(5)` and the `max_length=50` of the CharField. -/
def validate_name (s : String) : Bool :=
  node_name_regex_match s && decide (5 ≤ s.length) && decide (s.length ≤ 50)

/-- The spec's description of accepted names: letters, spaces and ampersand
only (used to compare the spec's claim against the code's validator). -/
def lettersSpacesAmpOnly (s : String) : Bool :=
  s.data.all isNameTailChar

/-! ### Tree state -/

/-- One stored `Node` row.  `path` is the materialized path of the treebeard
`MP_Node` (one step per tree level); depth is `path.length`, and the parent
of a node of depth ≥ 2 is the node whose path is `path.dropLast`. -/
structure NodeRec where
  id : Nat
  name : String
  aliases : String
  node_order_index : Int
  path : List Nat
deriving Repr, DecidableEq

/-- The stored table of nodes, plus the next primary key the database would
hand out.  Database primary keys start at 1, never 0 (so a stored `id` is
always truthy in the Python sense). -/
structure TreeState where
  nodes : List NodeRec
  nextId : Nat
deriving Repr, DecidableEq

/-- `Node.objects.get(pk=i)` (as an `Option`). -/
def findNode (s : TreeState) (i : Nat) : Option NodeRec :=
  s.nodes.find? (fun n => n.id == i)

/-- treebeard `is_root()`: depth 1. -/
def NodeRec.is_root (n : NodeRec) : Bool := n.path.length == 1

/-- The sibling ordering key given `node_order_by = ['node_order_index', 'name']`. -/
def nodeKey (n : NodeRec) : Int × String := (n.node_order_index, n.name)

/-- Lexicographic strict order on sibling keys. -/
def keyLt (a b : Int × String) : Bool :=
  decide (a.1 < b.1) || (a.1 == b.1 && decide (a.2 < b.2))

/-- The children of the node whose path is `pp` (depth `pp.length + 1`,
path extending `pp`). -/
def childrenOf (s : TreeState) (pp : List Nat) : List NodeRec :=
  s.nodes.filter (fun m => m.path.length == pp.length + 1 && pp.isPrefixOf m.path)

/-- Sorted insertion step for a new sibling with key `k` under `pp`:
the number of existing children whose key is not greater than `k`
(treebeard inserts before the first sibling that is greater). -/
def sortedPos (s : TreeState) (pp : List Nat) (k : Int × String) : Nat :=
  ((childrenOf s pp).filter (fun c => !keyLt k (nodeKey c))).length

/-- Shift one node to make room at step `thr` under `pp`: every node below
`pp` whose step at depth `pp.length` is at least `thr` moves one step up
(together with its whole subtree, since the step is part of every
descendant's path as well). -/
def shiftStep (pp : List Nat) (thr : Nat) (n : NodeRec) : NodeRec :=
  if pp.isPrefixOf n.path ∧ pp.length < n.path.length ∧ thr ≤ n.path.getD pp.length 0 then
    { n with path := n.path.set pp.length (n.path.getD pp.length 0 + 1) }
  else n

/-- treebeard sorted insertion of a new node under the node with path `pp`
(`pp = []` inserts a new root): later siblings are shifted up one step and
the new row is stored with path `pp ++ [sortedPos]`. -/
def sortedInsert (s : TreeState) (pp : List Nat) (nm als : String) (ord : Int) :
    TreeState × NodeRec :=
  let p := sortedPos s pp (ord, nm)
  let newNode : NodeRec :=
    { id := s.nextId, name := nm, aliases := als, node_order_index := ord, path := pp ++ [p] }
  ({ nodes := (s.nodes.map (shiftStep pp p)) ++ [newNode], nextId := s.nextId + 1 }, newNode)

/-- treebeard `get_parent()`, as the parent's primary key: `none` for a
root, otherwise the id of the row whose path is `path.dropLast`. -/
def get_parent_id (s : TreeState) (n : NodeRec) : Option Nat :=
  if n.path.length ≤ 1 then none
  else (s.nodes.find? (fun m => m.path == n.path.dropLast)).map (fun m => m.id)

/-! ### `Node.delete` -/

/-- `Node.delete()`: raise `PermissionDenied` on the root, otherwise
delegate to treebeard's delete, which removes the node together with its
whole subtree (every row whose path starts with the node's path).  The
state is threaded explicitly so that "raises" visibly leaves it unchanged. -/
def node_delete (s : TreeState) (i : Nat) : TreeState × Option String :=
  match findNode s i with
  | none => (s, some "DoesNotExist")
  | some n =>
    if n.is_root then (s, some "PermissionDenied")
    else ({ s with nodes := s.nodes.filter (fun m => !(n.path.isPrefixOf m.path)) }, none)

/-! ### `NodeForm.save` -/

/-- Outcome of `NodeForm.save` beside the resulting state: the unsaved
instance (when `commit=False`), the saved row, or a raised exception. -/
inductive SaveRet where
  | unsaved (nm als : String)
  | saved (n : NodeRec)
  | failedWith (msg : String)
deriving Repr, DecidableEq

/-- `instance.save()` on an existing row: persist the cleaned editable
fields (`name`, `aliases`); the path and `node_order_index` are untouched. -/
def updateFields (s : TreeState) (i : Nat) (nm als : String) : TreeState :=
  { s with nodes := s.nodes.map (fun n => if n.id == i then { n with name := nm, aliases := als } else n) }

/-- The state after re-rooting `n`'s subtree at
`tgt.path ++ [sortedPos]` (the sorted-child slot under `tgt`), shifting the
target's later children up one step to keep siblings sorted. -/
def movedState (s : TreeState) (n tgt : NodeRec) : TreeState :=
  { s with nodes := s.nodes.map (fun m =>
      if n.path.isPrefixOf m.path then
        { m with path := (tgt.path ++ [sortedPos s tgt.path (nodeKey n)]) ++
            m.path.drop n.path.length }
      else shiftStep tgt.path (sortedPos s tgt.path (nodeKey n)) m) }

/-- treebeard `get_first_sibling()` comparison: the node is the first of
its siblings when no row with the same depth and parent path has a smaller
last step, i.e. the node's row comes first in path order. -/
def isFirstSibling (s : TreeState) (n : NodeRec) : Bool :=
  (s.nodes.filter (fun m =>
      m.path.length == n.path.length && m.path.dropLast == n.path.dropLast)).all
    (fun m => decide (n.path.getLastD 0 ≤ m.path.getLastD 0))

/-- treebeard `move(target, pos='sorted-child')`.  The move handler first
turns "child of target" into a sibling position: a target with children is
retargeted to its last child with pos `sorted-sibling`, while a childless
target keeps the node headed for the target's (empty) set of children with
pos `first-sibling`.  It then raises `InvalidMoveToDescendant` exactly when
the possibly-retargeted target is a strict descendant of the node — so for
every proper-descendant target, and for the node itself when the node has
children (its last child is a strict descendant).  A childless node given
itself as target never raises: when the node is already the first of its
siblings the handler returns without touching the tree, and otherwise it
rewrites the node's row to the first-child slot of its own former position
(the path-rewrite SQL uses the old path both as source prefix and as the
new parent path; the first-sibling shift applies to an empty queryset).
That rewrite is `movedState s n n`: the sorted position under a childless
path is 0 and nothing else shifts.  Every other target receives the node's
subtree at the sorted-child slot. -/
def moveSortedChild (s : TreeState) (n tgt : NodeRec) : Except String TreeState :=
  if tgt.path = n.path then
    if (childrenOf s n.path).length ≠ 0 then
      Except.error "InvalidMoveToDescendant"
    else if isFirstSibling s n then
      Except.ok s
    else
      Except.ok (movedState s n tgt)
  else if n.path.isPrefixOf tgt.path then
    Except.error "InvalidMoveToDescendant"
  else
    Except.ok (movedState s n tgt)

/-- `NodeForm.save(commit)`, one call.  Arguments: the stored state, the
instance's id (`none` when creating), the cleaned `name`/`aliases`, the
cleaned `parent` choice (a primary key or `none`), and `commit`.
Line-by-line from the source:
* `commit=False` returns the unsaved instance, leaving the state alone;
* creating while `Node.objects.count()` is 0 adds a root (the parent value
  is not consulted); new rows carry the model default `node_order_index = 0`;
* creating while nodes exist calls `parent.add_child(...)` (`parent = None`
  would raise an `AttributeError` before touching the state);
* editing first persists the fields, then moves exactly when the selected
  parent differs from `instance.get_parent()`.
(The Python source compares the counts with `is 0`; under CPython's small
integer caching this is equality with 0.) -/
def nodeForm_save (s : TreeState) (instId : Option Nat) (nm als : String)
    (parent : Option Nat) (commit : Bool) : TreeState × SaveRet :=
  if !commit then
    (s, SaveRet.unsaved nm als)
  else
    match instId with
    | none =>
      if s.nodes.length == 0 then
        let r := sortedInsert s [] nm als 0
        (r.1, SaveRet.saved r.2)
      else
        match parent.bind (findNode s) with
        | none => (s, SaveRet.failedWith "AttributeError")
        | some pr =>
          let r := sortedInsert s pr.path nm als 0
          (r.1, SaveRet.saved r.2)
    | some i =>
      match findNode s i with
      | none => (s, SaveRet.failedWith "DoesNotExist")
      | some n0 =>
        let s1 := updateFields s i nm als
        let n1 : NodeRec := { n0 with name := nm, aliases := als }
        if get_parent_id s1 n1 == parent then
          (s1, SaveRet.saved n1)
        else
          match parent.bind (findNode s1) with
          | none => (s1, SaveRet.failedWith "AttributeError")
          | some tgt =>
            match moveSortedChild s1 n1 tgt with
            | Except.error e => (s1, SaveRet.failedWith e)
            | Except.ok s2 =>
              -- the form returns the in-memory instance; treebeard's move
              -- issues raw SQL and does not refresh its attributes
              (s2, SaveRet.saved n1)

/-! ### `NodeForm.__init__` -/

/-- Configuration of the form's `parent` field after `__init__`. -/
structure ParentFieldConfig where
  disabled : Bool
  required : Bool
  empty_label : Option String
  hiddenWidget : Bool
  initialVal : Option Nat
deriving Repr, DecidableEq

/-- Configuration of the form after `__init__`. -/
structure FormConfig where
  parentField : ParentFieldConfig
  nameLabel : String
deriving Repr, DecidableEq

/-- The `parent` field as declared on `NodeForm`: required, full queryset,
`empty_label=None`, default select widget, no initial value. -/
def defaultParentField : ParentFieldConfig :=
  { disabled := false, required := true, empty_label := none,
    hiddenWidget := false, initialVal := none }

/-- `NodeForm.__init__`: for the root instance (an unsaved instance has no
depth, so `is_root()` is falsy for it) or an empty table, disable and hide
the parent field and mark the name label; otherwise, for an existing
instance, preset the parent choice to the current parent. -/
def nodeForm_init (s : TreeState) (instId : Option Nat) : FormConfig :=
  let instIsRoot : Bool :=
    match instId with
    | some i =>
      match findNode s i with
      | some n => n.is_root
      | none => false
    | none => false
  if instIsRoot || s.nodes.length == 0 then
    { parentField :=
        { disabled := true, required := false, empty_label := some "N/A - Root Node",
          hiddenWidget := true, initialVal := none },
      nameLabel := "Name (Root)" }
  else
    match instId with
    | some i =>
      { parentField :=
          { defaultParentField with initialVal := (findNode s i).bind (get_parent_id s) },
        nameLabel := "Name" }
    | none => { parentField := defaultParentField, nameLabel := "Name" }

/-! ### Admin glue: delete button, add-child view -/

/-- A listing button, as a record of which framework primitive produced it. -/
structure ButtonDict where
  kind : String
  pk : Nat
deriving Repr, DecidableEq

/-- Modelled framework primitive: wagtail's `ButtonHelper.delete_button`,
the standard delete button for the row `pk`. -/
def framework_delete_button (pk : Nat) : ButtonDict :=
  { kind := "delete", pk := pk }

/-- `NodeButtonHelper.delete_button`: fetch the row (`objects.get` raises
when it is absent), return `None` for the root, otherwise the framework's
standard delete button. -/
def nodeButtonHelper_delete_button (s : TreeState) (pk : Nat) :
    Except String (Option ButtonDict) :=
  match findNode s pk with
  | none => Except.error "DoesNotExist"
  | some n =>
    if n.is_root then Except.ok none
    else Except.ok (some (framework_delete_button pk))

/-- `AddChildNodeViewClass.__init__`: filter the queryset by the parent pk
and run it through `get_object_or_404` (which raises `Http404` on an empty
queryset and `MultipleObjectsReturned` on more than one row). -/
def addChildView_init (s : TreeState) (parent_pk : Nat) : Except String Nat :=
  match s.nodes.filter (fun n => n.id == parent_pk) with
  | [] => Except.error "Http404"
  | [n] => Except.ok n.id
  | _ :: _ :: _ => Except.error "MultipleObjectsReturned"

/-- `AddChildNodeViewClass.get_initial`: the form's initial data maps
`parent` to the view's `parent_pk`. -/
def addChildView_get_initial (parent_pk : Nat) : Option Nat :=
  some parent_pk

/-! ### Invariant bookkeeping for the single-root property -/

/-- Number of stored roots. -/
def rootCount (s : TreeState) : Nat :=
  s.nodes.countP (fun n => n.path.length == 1)

/-- Every stored row has a nonempty materialized path (depth ≥ 1); true of
every state the database can hold. -/
def pathsWF (s : TreeState) : Prop :=
  ∀ n ∈ s.nodes, n.path ≠ []

/-- One `NodeForm.save` call, as data (for iterating sequences of calls). -/
structure SaveOp where
  instId : Option Nat
  nm : String
  als : String
  parent : Option Nat
  commit : Bool
deriving Repr, DecidableEq

/-- The state after one `NodeForm.save` call. -/
def applySave (s : TreeState) (op : SaveOp) : TreeState :=
  (nodeForm_save s op.instId op.nm op.als op.parent op.commit).1

/-- The state after a sequence of `NodeForm.save` calls. -/
def applySaves (s : TreeState) (ops : List SaveOp) : TreeState :=
  ops.foldl applySave s

/-- The form configuration produced for the root node / empty-table case. -/
def rootFormConfig : FormConfig :=
  { parentField :=
      { disabled := true, required := false, empty_label := some "N/A - Root Node",
        hiddenWidget := true, initialVal := none },
    nameLabel := "Name (Root)" }

/-! ### Concrete example states (used by witnesses) -/

/-- Empty table. -/
def exState0 : TreeState := { nodes := [], nextId := 1 }

/-- Root row of the two-node example tree. -/
def exRoot : NodeRec := { id := 1, name := "Fruit", aliases := "", node_order_index := 0, path := [0] }

/-- Child row of the two-node example tree. -/
def exChild : NodeRec := { id := 2, name := "Apple", aliases := "", node_order_index := 0, path := [0, 0] }

/-- A stored tree with one root (`Fruit`) and one child (`Apple`). -/
def exState : TreeState := { nodes := [exRoot, exChild], nextId := 3 }

/-- A three-node chain `Fruit → Citrus → Lemon`. -/
def exDeep : TreeState :=
  { nodes :=
      [{ id := 1, name := "Fruit", aliases := "", node_order_index := 0, path := [0] },
       { id := 2, name := "Citrus", aliases := "", node_order_index := 0, path := [0, 0] },
       { id := 3, name := "Lemon", aliases := "", node_order_index := 0, path := [0, 0, 0] }],
    nextId := 4 }

/-- The in-memory instance after `super().save(commit=False)` refreshed the
cleaned editable fields on an existing row. -/
def editedRec (n0 : NodeRec) (nm als : String) : NodeRec :=
  { n0 with name := nm, aliases := als }

/-! ## Theorems -/

/-- C1: `Node.delete()` raises `PermissionDenied` if and only if the node is
the root; on the root it raises before any deletion occurs, leaving the
stored nodes unchanged, and on every non-root node it delegates to the tree
library's delete (removing the node's subtree) and succeeds. -/
theorem C1_delete_root_guard (s : TreeState) (i : Nat) (n : NodeRec)
    (h : findNode s i = some n) :
    ((node_delete s i).2 = some "PermissionDenied" ↔ n.is_root = true) ∧
    (n.is_root = true → (node_delete s i).1 = s) ∧
    (n.is_root = false →
      node_delete s i =
        ({ s with nodes := s.nodes.filter (fun m => !(n.path.isPrefixOf m.path)) }, none)) := by
  unfold node_delete
  rw [h]
  cases hr : n.is_root <;> simp [hr]

/-- Witness for C1 at the concrete two-node tree, node 1 (the root). -/
theorem C1_delete_root_guard_witness :
    ((node_delete exState 1).2 = some "PermissionDenied" ↔ exRoot.is_root = true) ∧
    (exRoot.is_root = true → (node_delete exState 1).1 = exState) ∧
    (exRoot.is_root = false →
      node_delete exState 1 =
        ({ exState with
            nodes := exState.nodes.filter (fun m => !(exRoot.path.isPrefixOf m.path)) }, none)) :=
  C1_delete_root_guard exState 1 exRoot (by decide)

/-- C7: `NodeButtonHelper.delete_button` returns no button exactly for the
root row, and the framework's standard delete button for every other row. -/
theorem C7_delete_button_root (s : TreeState) (pk : Nat) (n : NodeRec)
    (h : findNode s pk = some n) :
    (nodeButtonHelper_delete_button s pk = Except.ok none ↔ n.is_root = true) ∧
    (n.is_root = false →
      nodeButtonHelper_delete_button s pk = Except.ok (some (framework_delete_button pk))) := by
  unfold nodeButtonHelper_delete_button
  rw [h]
  cases hr : n.is_root <;> simp [hr]

/-- Witness for C7 at the concrete two-node tree, node 2 (a non-root). -/
theorem C7_delete_button_root_witness :
    (nodeButtonHelper_delete_button exState 2 = Except.ok none ↔ exChild.is_root = true) ∧
    (exChild.is_root = false →
      nodeButtonHelper_delete_button exState 2 =
        Except.ok (some (framework_delete_button 2))) :=
  C7_delete_button_root exState 2 exChild (by decide)

/-- C8: `NodeForm.save(commit=False)` returns the unsaved instance and
leaves the stored tree exactly as it was, for every instance and parent. -/
theorem C8_no_commit_no_change (s : TreeState) (instId : Option Nat)
    (nm als : String) (parent : Option Nat) :
    nodeForm_save s instId nm als parent false = (s, SaveRet.unsaved nm als) := by
  simp [nodeForm_save]

/-- C10: the add-child view 404s exactly when no node carries the given
parent pk, and its initial form data sets `parent` to that pk. -/
theorem C10_add_child_view (s : TreeState) (pk : Nat) :
    (addChildView_init s pk = Except.error "Http404" ↔ ∀ n ∈ s.nodes, n.id ≠ pk) ∧
    addChildView_get_initial pk = some pk := by
  refine ⟨?_, rfl⟩
  unfold addChildView_init
  cases hf : s.nodes.filter (fun n => n.id == pk) with
  | nil =>
    simp only [reduceCtorEq, true_iff]
    intro n hn hid
    have := List.filter_eq_nil_iff.mp hf n hn
    simp [hid] at this
  | cons a t =>
    have ha : a ∈ s.nodes.filter (fun n => n.id == pk) := by
      rw [hf]; exact List.mem_cons_self a t
    have ⟨ham, haid⟩ := List.mem_filter.mp ha
    have : ¬ (∀ n ∈ s.nodes, n.id ≠ pk) := by
      intro hall
      exact hall a ham (by simpa using haid)
    cases t <;> simp [this]

/-- Witness for C10 at the concrete two-node tree with an absent pk. -/
theorem C10_add_child_view_witness :
    ((addChildView_init exState 5 = Except.error "Http404" ↔
        ∀ n ∈ exState.nodes, n.id ≠ 5) ∧
      addChildView_get_initial 5 = some 5) ∧
    addChildView_init exState 5 = Except.error "Http404" :=
  ⟨C10_add_child_view exState 5, rfl⟩

/-- C2: creating the first node (`commit=True`, no instance id, empty
table) adds it as the root, and the cleaned parent value is never used:
the result is the same for every supplied parent value. -/
theorem C2_first_node_becomes_root (s : TreeState) (nm als : String)
    (p1 p2 : Option Nat) (h : s.nodes.length = 0) :
    nodeForm_save s none nm als p1 true = nodeForm_save s none nm als p2 true ∧
    nodeForm_save s none nm als p1 true =
      ({ nodes := [{ id := s.nextId, name := nm, aliases := als,
                     node_order_index := 0, path := [0] }],
         nextId := s.nextId + 1 },
       SaveRet.saved { id := s.nextId, name := nm, aliases := als,
                       node_order_index := 0, path := [0] }) ∧
    NodeRec.is_root { id := s.nextId, name := nm, aliases := als,
                      node_order_index := 0, path := [0] } = true := by
  have hnil : s.nodes = [] := List.length_eq_zero.mp h
  refine ⟨?_, ?_, by simp [NodeRec.is_root]⟩ <;>
    simp [nodeForm_save, sortedInsert, sortedPos, childrenOf, hnil]

/-- Witness for C2 on the empty table, with two different parent values. -/
theorem C2_first_node_becomes_root_witness :
    nodeForm_save exState0 none "Fruit" "" (some 7) true =
      nodeForm_save exState0 none "Fruit" "" none true ∧
    nodeForm_save exState0 none "Fruit" "" (some 7) true =
      ({ nodes := [{ id := exState0.nextId, name := "Fruit", aliases := "",
                     node_order_index := 0, path := [0] }],
         nextId := exState0.nextId + 1 },
       SaveRet.saved { id := exState0.nextId, name := "Fruit", aliases := "",
                       node_order_index := 0, path := [0] }) ∧
    NodeRec.is_root { id := exState0.nextId, name := "Fruit", aliases := "",
                      node_order_index := 0, path := [0] } = true :=
  C2_first_node_becomes_root exState0 "Fruit" "" (some 7) none (by decide)

/-- C3: creating while nodes exist keeps the parent field required with no
empty choice, and attaches the new node as a child of exactly the selected
parent: its stored path extends the parent's path by one sorted step. -/
theorem C3_second_node_under_parent (s : TreeState) (nm als : String)
    (p : Nat) (pr : NodeRec) (hne : s.nodes.length ≠ 0)
    (hp : findNode s p = some pr) :
    ((nodeForm_init s none).parentField.required = true ∧
      (nodeForm_init s none).parentField.empty_label = none) ∧
    nodeForm_save s none nm als (some p) true =
      ({ nodes := s.nodes.map (shiftStep pr.path (sortedPos s pr.path (0, nm))) ++
           [{ id := s.nextId, name := nm, aliases := als, node_order_index := 0,
              path := pr.path ++ [sortedPos s pr.path (0, nm)] }],
         nextId := s.nextId + 1 },
       SaveRet.saved { id := s.nextId, name := nm, aliases := als,
                       node_order_index := 0,
                       path := pr.path ++ [sortedPos s pr.path (0, nm)] }) ∧
    (pr.path ++ [sortedPos s pr.path (0, nm)]).dropLast = pr.path := by
  refine ⟨?_, ?_, by simp⟩
  · unfold nodeForm_init
    simp [hne, defaultParentField]
  · have h0 : (s.nodes.length == 0) = false := by simp [hne]
    simp [nodeForm_save, h0, Option.some_bind, hp, sortedInsert]

/-- Witness for C3: adding `Banana` under the root of the two-node tree. -/
theorem C3_second_node_under_parent_witness :
    ((nodeForm_init exState none).parentField.required = true ∧
      (nodeForm_init exState none).parentField.empty_label = none) ∧
    nodeForm_save exState none "Banana" "" (some 1) true =
      ({ nodes := exState.nodes.map
             (shiftStep exRoot.path (sortedPos exState exRoot.path (0, "Banana"))) ++
           [{ id := exState.nextId, name := "Banana", aliases := "",
              node_order_index := 0,
              path := exRoot.path ++ [sortedPos exState exRoot.path (0, "Banana")] }],
         nextId := exState.nextId + 1 },
       SaveRet.saved { id := exState.nextId, name := "Banana", aliases := "",
                       node_order_index := 0,
                       path := exRoot.path ++ [sortedPos exState exRoot.path (0, "Banana")] }) ∧
    (exRoot.path ++ [sortedPos exState exRoot.path (0, "Banana")]).dropLast = exRoot.path :=
  C3_second_node_under_parent exState "Banana" "" 1 exRoot (by decide) (by decide)

/-- Unfolding of the regex core into an explicit character description. -/
theorem nameRegexCore_iff (l : List Char) :
    nameRegexCore l = true ↔
      ∃ c rest, l = c :: rest ∧ isWordChar c = true ∧ rest ≠ [] ∧
        ∀ d ∈ rest, isNameTailChar d = true := by
  cases l with
  | nil => simp [nameRegexCore]
  | cons c rest =>
    simp only [nameRegexCore, Bool.and_eq_true, Bool.not_eq_true',
      List.isEmpty_eq_false_iff_exists_mem, List.all_eq_true]
    constructor
    · rintro ⟨⟨hw, _, hm⟩, hall⟩
      exact ⟨c, rest, rfl, hw, by rintro rfl; simp at hm, hall⟩
    · rintro ⟨c', rest', heq, hw, hne, hall⟩
      rw [List.cons_eq_cons] at heq
      obtain ⟨rfl, rfl⟩ := heq
      refine ⟨⟨hw, ?_⟩, hall⟩
      cases rest with
      | nil => exact absurd rfl hne
      | cons d t => exact ⟨d, List.mem_cons_self d t⟩

/-- C5 counterexample: `"1abcd"` is accepted by the code's validation (the
regex's first character class is `\w`, which admits digits), but it does
not consist only of letters, spaces and ampersand, so the claim as stated
is false. -/
theorem C5_counterexample :
    validate_name "1abcd" = true ∧ lettersSpacesAmpOnly "1abcd" = false := by
  decide

/-- C5 (amended): validation accepts a name exactly when its length is
between 5 and 50 and it matches the source regex `[\w][a-zA-Z &]+` anchored
to the whole string — one word character (letter, digit or underscore)
followed by one or more characters from letters, space and ampersand —
where Python's `$` also tolerates a single trailing newline. -/
theorem C5_amended_name_validation (s : String) :
    validate_name s = true ↔
      5 ≤ s.length ∧ s.length ≤ 50 ∧
        ((∃ c rest, s.data = c :: rest ∧ isWordChar c = true ∧ rest ≠ [] ∧
            ∀ d ∈ rest, isNameTailChar d = true) ∨
          (s.data.getLast? = some '\n' ∧
            ∃ c rest, s.data.dropLast = c :: rest ∧ isWordChar c = true ∧ rest ≠ [] ∧
              ∀ d ∈ rest, isNameTailChar d = true)) := by
  unfold validate_name node_name_regex_match
  simp only [Bool.and_eq_true, Bool.or_eq_true, decide_eq_true_eq, beq_iff_eq,
    nameRegexCore_iff]
  constructor
  · rintro ⟨⟨hr, h5⟩, h50⟩
    exact ⟨h5, h50, hr⟩
  · rintro ⟨h5, h50, hr⟩
    exact ⟨⟨hr, h5⟩, h50⟩

/-- C9: for a form built for the root node, or when the table is empty, the
parent field is disabled, not required, hidden, labelled
`'N/A - Root Node'`, and the name label gains `' (Root)'`; for any other
existing node the parent field's initial value is the node's current
parent. -/
theorem C9_form_init_config (s : TreeState) :
    (∀ i n, findNode s i = some n → n.is_root = true →
      nodeForm_init s (some i) = rootFormConfig) ∧
    (s.nodes.length = 0 → ∀ instId, nodeForm_init s instId = rootFormConfig) ∧
    (∀ i n, findNode s i = some n → n.is_root = false → s.nodes.length ≠ 0 →
      nodeForm_init s (some i) =
        { parentField := { defaultParentField with initialVal := get_parent_id s n },
          nameLabel := "Name" }) := by
  refine ⟨?_, ?_, ?_⟩
  · intro i n h hr
    unfold nodeForm_init
    simp [h, hr, rootFormConfig]
  · intro h0 instId
    unfold nodeForm_init
    simp only [h0]
    cases instId <;> simp [rootFormConfig]
  · intro i n h hr hne
    unfold nodeForm_init
    simp [h, hr, hne]

/-- Witness for C9 on the two-node tree (root case, empty-table case, and
the child's initial parent). -/
theorem C9_form_init_config_witness :
    nodeForm_init exState (some 1) = rootFormConfig ∧
    nodeForm_init exState0 none = rootFormConfig ∧
    nodeForm_init exState (some 2) =
      { parentField := { defaultParentField with initialVal := get_parent_id exState exChild },
        nameLabel := "Name" } :=
  ⟨(C9_form_init_config exState).1 1 exRoot (by decide) (by decide),
   (C9_form_init_config exState0).2.1 (by decide) none,
   (C9_form_init_config exState).2.2 2 exChild (by decide) (by decide) (by decide)⟩

/-- `find?` over a mapped list looks for the transported predicate. -/
theorem find?_map_comm {α β : Type} (f : α → β) (p : β → Bool) (l : List α) :
    (l.map f).find? p = (l.find? (fun a => p (f a))).map f := by
  induction l with
  | nil => rfl
  | cons a t ih => by_cases hp : p (f a) <;> simp [List.find?_cons, hp, ih]

/-- `shiftStep` never touches the id. -/
theorem shiftStep_id (pp : List Nat) (thr : Nat) (n : NodeRec) :
    (shiftStep pp thr n).id = n.id := by
  unfold shiftStep
  split <;> rfl

/-- `shiftStep` never changes the depth. -/
theorem shiftStep_path_length (pp : List Nat) (thr : Nat) (n : NodeRec) :
    (shiftStep pp thr n).path.length = n.path.length := by
  unfold shiftStep
  split <;> simp

/-- `instance.save()` on an existing row changes no path. -/
theorem updateFields_paths (s : TreeState) (i : Nat) (nm als : String) :
    (updateFields s i nm als).nodes.map NodeRec.path = s.nodes.map NodeRec.path := by
  unfold updateFields
  simp only [List.map_map]
  apply List.map_congr_left
  intro a _
  by_cases ha : (a.id == i) = true <;> simp [Function.comp, ha]

/-- Looking up the edited row after `instance.save()`. -/
theorem findNode_updateFields (s : TreeState) (i : Nat) (n0 : NodeRec) (nm als : String)
    (h : findNode s i = some n0) :
    findNode (updateFields s i nm als) i = some (editedRec n0 nm als) := by
  unfold findNode at h
  have hid := List.find?_some h
  simp only [] at hid
  unfold findNode updateFields
  rw [find?_map_comm]
  have hpred : (fun a : NodeRec =>
      ((if a.id == i then { a with name := nm, aliases := als } else a).id == i)) =
      (fun a : NodeRec => a.id == i) := by
    funext a
    by_cases ha : (a.id == i) = true <;> simp [ha]
  rw [hpred, h]
  simp only [Option.map_some, Option.some.injEq, editedRec]
  simp only [beq_iff_eq] at hid
  simp [hid]

/-- Looking up the moved row after a subtree re-rooting. -/
theorem findNode_movedState (s : TreeState) (n tgt : NodeRec) (i : Nat)
    (hf : findNode s i = some n) :
    findNode (movedState s n tgt) i =
      some { n with path := tgt.path ++ [sortedPos s tgt.path (nodeKey n)] } := by
  unfold findNode at hf
  unfold findNode movedState
  rw [find?_map_comm]
  have hpred : (fun a : NodeRec =>
      ((if n.path.isPrefixOf a.path then
          { a with path := (tgt.path ++ [sortedPos s tgt.path (nodeKey n)]) ++
              a.path.drop n.path.length }
        else shiftStep tgt.path (sortedPos s tgt.path (nodeKey n)) a).id == i)) =
      (fun a : NodeRec => a.id == i) := by
    funext a
    by_cases hpa : n.path.isPrefixOf a.path <;> simp [hpa, shiftStep_id]
  rw [hpred, hf]
  simp [List.isPrefixOf_iff_prefix, List.drop_length]

/-- The move handler refuses a proper descendant as target. -/
theorem moveSortedChild_descendant (s : TreeState) (n tgt : NodeRec)
    (hpre : n.path.isPrefixOf tgt.path = true) (hne : tgt.path ≠ n.path) :
    moveSortedChild s n tgt = Except.error "InvalidMoveToDescendant" := by
  unfold moveSortedChild
  rw [if_neg hne, if_pos hpre]

/-- The move handler refuses the node itself as target when the node has
children (it retargets to the node's last child, a proper descendant). -/
theorem moveSortedChild_self_children (s : TreeState) (n tgt : NodeRec)
    (hself : tgt.path = n.path) (hch : (childrenOf s n.path).length ≠ 0) :
    moveSortedChild s n tgt = Except.error "InvalidMoveToDescendant" := by
  unfold moveSortedChild
  rw [if_pos hself, if_pos hch]

/-- A childless node given itself as target, already first among its
siblings: the handler returns without touching the tree. -/
theorem moveSortedChild_self_first (s : TreeState) (n tgt : NodeRec)
    (hself : tgt.path = n.path) (hch : (childrenOf s n.path).length = 0)
    (hfs : isFirstSibling s n = true) :
    moveSortedChild s n tgt = Except.ok s := by
  unfold moveSortedChild
  rw [if_pos hself, if_neg (by omega), if_pos hfs]

/-- A childless node given itself as target, not the first of its
siblings: the handler rewrites the node's row to the first-child slot of
its own former position (which is `movedState s n n`). -/
theorem moveSortedChild_self_relocate (s : TreeState) (n tgt : NodeRec)
    (hself : tgt.path = n.path) (hch : (childrenOf s n.path).length = 0)
    (hfs : isFirstSibling s n = false) :
    moveSortedChild s n tgt = Except.ok (movedState s n tgt) := by
  unfold moveSortedChild
  rw [if_pos hself, if_neg (by omega), if_neg (by simp [hfs])]

/-- Any target outside the node's subtree is accepted. -/
theorem moveSortedChild_accept (s : TreeState) (n tgt : NodeRec)
    (hpre : n.path.isPrefixOf tgt.path = false) :
    moveSortedChild s n tgt = Except.ok (movedState s n tgt) := by
  unfold moveSortedChild
  have hne : ¬ tgt.path = n.path := by
    intro hc
    rw [hc] at hpre
    have hrefl : n.path.isPrefixOf n.path = true := by
      simp [List.isPrefixOf_iff_prefix]
    rw [hrefl] at hpre
    exact Bool.noConfusion hpre
  rw [if_neg hne, if_neg (by simp [hpre])]

/-- Unfolding of `NodeForm.save(commit=True)` on an existing row. -/
theorem nodeForm_save_edit (s : TreeState) (i : Nat) (n0 : NodeRec) (nm als : String)
    (parent : Option Nat) (h : findNode s i = some n0) :
    nodeForm_save s (some i) nm als parent true =
      (if get_parent_id (updateFields s i nm als) (editedRec n0 nm als) == parent then
        (updateFields s i nm als, SaveRet.saved (editedRec n0 nm als))
      else
        match parent.bind (findNode (updateFields s i nm als)) with
        | none => (updateFields s i nm als, SaveRet.failedWith "AttributeError")
        | some tgt =>
          match moveSortedChild (updateFields s i nm als) (editedRec n0 nm als) tgt with
          | Except.error e => (updateFields s i nm als, SaveRet.failedWith e)
          | Except.ok s2 => (s2, SaveRet.saved (editedRec n0 nm als))) := by
  simp only [nodeForm_save, h, editedRec, Bool.not_true]
  rfl

/-- C4 counterexample: in the chain `Fruit(1) → Citrus(2) → Lemon(3)`,
editing `Citrus` with selected parent `Lemon` (a descendant) has the
selected parent differ from the current parent (`some 1`), yet the node is
not moved under the new parent: the tree library refuses the reparent and
`Citrus` keeps its position `[0, 0]` (with the field edit persisted), so
the claim's "moved if and only if the selected parent differs" is false. -/
theorem C4_counterexample :
    get_parent_id exDeep
        { id := 2, name := "Citrus", aliases := "tangy", node_order_index := 0,
          path := [0, 0] } = some 1 ∧
    (nodeForm_save exDeep (some 2) "Citrus" "tangy" (some 3) true).2 =
      SaveRet.failedWith "InvalidMoveToDescendant" ∧
    findNode (nodeForm_save exDeep (some 2) "Citrus" "tangy" (some 3) true).1 2 =
      some { id := 2, name := "Citrus", aliases := "tangy", node_order_index := 0,
             path := [0, 0] } := by
  decide

/-- C4 (amended): `NodeForm.save(commit=True)` on an existing node always
persists the field changes, touching no path.  With the selected parent
equal to the current parent the tree is untouched.  With a differing
selected parent the outcome follows the tree library's move handler: a
proper descendant of the node as target — and the node itself while the
node has children — is refused with `InvalidMoveToDescendant`, the node's
position unchanged (the field changes already persisted); the node itself
as target while childless never raises: the tree is untouched when the
node is already the first of its siblings, and otherwise the node's row is
rewritten to the first-child slot of its own former position; any other
target receives the node at the sorted-child slot under it. -/
theorem C4_amended_edit_and_move (s : TreeState) (i : Nat) (n0 : NodeRec)
    (nm als : String) (parent : Option Nat) (h : findNode s i = some n0) :
    (updateFields s i nm als).nodes.map NodeRec.path = s.nodes.map NodeRec.path ∧
    (get_parent_id (updateFields s i nm als) (editedRec n0 nm als) = parent →
      nodeForm_save s (some i) nm als parent true =
        (updateFields s i nm als, SaveRet.saved (editedRec n0 nm als))) ∧
    (∀ pid tgt, parent = some pid →
      get_parent_id (updateFields s i nm als) (editedRec n0 nm als) ≠ parent →
      findNode (updateFields s i nm als) pid = some tgt →
      ((n0.path.isPrefixOf tgt.path = true → tgt.path ≠ n0.path →
        nodeForm_save s (some i) nm als parent true =
          (updateFields s i nm als, SaveRet.failedWith "InvalidMoveToDescendant")) ∧
      (tgt.path = n0.path →
        (childrenOf (updateFields s i nm als) n0.path).length ≠ 0 →
        nodeForm_save s (some i) nm als parent true =
          (updateFields s i nm als, SaveRet.failedWith "InvalidMoveToDescendant")) ∧
      (tgt.path = n0.path →
        (childrenOf (updateFields s i nm als) n0.path).length = 0 →
        isFirstSibling (updateFields s i nm als) (editedRec n0 nm als) = true →
        nodeForm_save s (some i) nm als parent true =
          (updateFields s i nm als, SaveRet.saved (editedRec n0 nm als))) ∧
      (tgt.path = n0.path →
        (childrenOf (updateFields s i nm als) n0.path).length = 0 →
        isFirstSibling (updateFields s i nm als) (editedRec n0 nm als) = false →
        nodeForm_save s (some i) nm als parent true =
          (movedState (updateFields s i nm als) (editedRec n0 nm als) tgt,
           SaveRet.saved (editedRec n0 nm als)) ∧
        findNode (movedState (updateFields s i nm als) (editedRec n0 nm als) tgt) i =
          some { editedRec n0 nm als with path := n0.path ++ [0] }) ∧
      (n0.path.isPrefixOf tgt.path = false →
        nodeForm_save s (some i) nm als parent true =
          (movedState (updateFields s i nm als) (editedRec n0 nm als) tgt,
           SaveRet.saved (editedRec n0 nm als)) ∧
        findNode (movedState (updateFields s i nm als) (editedRec n0 nm als) tgt) i =
          some { editedRec n0 nm als with
            path := tgt.path ++
              [sortedPos (updateFields s i nm als) tgt.path
                (nodeKey (editedRec n0 nm als))] }))) := by
  have hf1 : findNode (updateFields s i nm als) i = some (editedRec n0 nm als) :=
    findNode_updateFields s i n0 nm als h
  refine ⟨updateFields_paths s i nm als, ?_, ?_⟩
  · intro hsame
    rw [nodeForm_save_edit s i n0 nm als parent h]
    simp [hsame]
  · rintro pid tgt rfl hdiff hfind
    rw [nodeForm_save_edit s i n0 nm als (some pid) h]
    rw [if_neg (by simpa using hdiff)]
    simp only [Option.some_bind, hfind]
    refine ⟨?_, ?_, ?_, ?_, ?_⟩
    · intro hpre hne
      rw [moveSortedChild_descendant (updateFields s i nm als) (editedRec n0 nm als) tgt
        hpre hne]
    · intro hself hch
      rw [moveSortedChild_self_children (updateFields s i nm als) (editedRec n0 nm als) tgt
        hself hch]
    · intro hself hch hfs
      rw [moveSortedChild_self_first (updateFields s i nm als) (editedRec n0 nm als) tgt
        hself hch hfs]
    · intro hself hch hfs
      rw [moveSortedChild_self_relocate (updateFields s i nm als) (editedRec n0 nm als) tgt
        hself hch hfs]
      refine ⟨rfl, ?_⟩
      have hfm := findNode_movedState (updateFields s i nm als) (editedRec n0 nm als) tgt i hf1
      have hcnil : childrenOf (updateFields s i nm als) tgt.path = [] := by
        apply List.length_eq_zero.mp
        rw [hself]
        exact hch
      have hsp : sortedPos (updateFields s i nm als) tgt.path
          (nodeKey (editedRec n0 nm als)) = 0 := by
        unfold sortedPos
        rw [hcnil]
        rfl
      rw [hfm, hsp, hself]
    · intro hpre
      rw [moveSortedChild_accept (updateFields s i nm als) (editedRec n0 nm als) tgt hpre]
      exact ⟨rfl, findNode_movedState (updateFields s i nm als) (editedRec n0 nm als) tgt i hf1⟩

/-- Witness for the amended C4: editing `Lemon` while keeping its parent
(`Citrus`) persists the fields and does not move the node. -/
theorem C4_amended_edit_and_move_witness :
    nodeForm_save exDeep (some 3) "Lemon" "sour" (some 2) true =
      (updateFields exDeep 3 "Lemon" "sour",
       SaveRet.saved { id := 3, name := "Lemon", aliases := "sour",
                       node_order_index := 0, path := [0, 0, 0] }) :=
  (C4_amended_edit_and_move exDeep 3
      { id := 3, name := "Lemon", aliases := "", node_order_index := 0, path := [0, 0, 0] }
      "Lemon" "sour" (some 2) (by decide)).2.1 (by decide)

/-- Counting roots after a depth-preserving rewrite of every row. -/
theorem countRoots_map_eq (l : List NodeRec) (f : NodeRec → NodeRec)
    (h : ∀ n ∈ l, (f n).path.length = n.path.length) :
    (l.map f).countP (fun n => n.path.length == 1) =
      l.countP (fun n => n.path.length == 1) := by
  rw [List.countP_map]
  apply List.countP_congr
  intro n hn
  simp [Function.comp, h n hn]

/-- Counting roots after a rewrite that never lowers a row to depth 1. -/
theorem countRoots_map_le (l : List NodeRec) (f : NodeRec → NodeRec)
    (h : ∀ n ∈ l, ((f n).path.length == 1) = true → (n.path.length == 1) = true) :
    (l.map f).countP (fun n => n.path.length == 1) ≤
      l.countP (fun n => n.path.length == 1) := by
  rw [List.countP_map]
  exact List.countP_mono_left h

/-- A shifted row still has a nonempty path. -/
theorem shiftStep_path_ne (pp : List Nat) (thr : Nat) (n : NodeRec)
    (h : n.path ≠ []) : (shiftStep pp thr n).path ≠ [] := by
  intro hc
  apply h
  have hl := shiftStep_path_length pp thr n
  rw [hc] at hl
  exact List.length_eq_zero.mp hl.symm

/-- `instance.save()` changes no root count. -/
theorem rootCount_updateFields (s : TreeState) (i : Nat) (nm als : String) :
    rootCount (updateFields s i nm als) = rootCount s := by
  unfold rootCount updateFields
  apply countRoots_map_eq
  intro n _
  by_cases h : (n.id == i) = true <;> simp [h]

/-- `instance.save()` keeps every path nonempty. -/
theorem pathsWF_updateFields (s : TreeState) (i : Nat) (nm als : String)
    (h : pathsWF s) : pathsWF (updateFields s i nm als) := by
  intro n hn
  unfold updateFields at hn
  simp only [List.mem_map] at hn
  obtain ⟨m, hm, rfl⟩ := hn
  by_cases hid : (m.id == i) = true
  · simpa [hid] using h m hm
  · simpa [hid] using h m hm

/-- Inserting below an existing node (nonempty parent path) changes no
root count: the shifted rows keep their depth and the new row has depth
at least 2. -/
theorem rootCount_sortedInsert_nonroot (s : TreeState) (pp : List Nat)
    (nm als : String) (ord : Int) (hpp : pp ≠ []) :
    rootCount (sortedInsert s pp nm als ord).1 = rootCount s := by
  have hppl : pp.length ≠ 0 := fun hc => hpp (List.length_eq_zero.mp hc)
  unfold rootCount sortedInsert
  simp only [List.countP_append]
  rw [countRoots_map_eq s.nodes _ (fun n _ => shiftStep_path_length pp _ n)]
  have hnew : ((pp ++ [sortedPos s pp (ord, nm)]).length == 1) = false := by
    simp only [List.length_append, List.length_cons, List.length_nil]
    simp only [beq_eq_false_iff_ne, ne_eq]
    omega
  simp [List.countP_cons, hnew, hpp]

/-- Inserting the first row into the empty table yields exactly one root. -/
theorem rootCount_sortedInsert_empty (s : TreeState) (nm als : String) (ord : Int)
    (h : s.nodes = []) : rootCount (sortedInsert s [] nm als ord).1 = 1 := by
  unfold rootCount sortedInsert
  simp [h, List.countP_cons]

/-- Sorted insertion keeps every path nonempty. -/
theorem pathsWF_sortedInsert (s : TreeState) (pp : List Nat) (nm als : String)
    (ord : Int) (h : pathsWF s) : pathsWF (sortedInsert s pp nm als ord).1 := by
  intro n hn
  unfold sortedInsert at hn
  simp only [List.mem_append, List.mem_map, List.mem_singleton] at hn
  rcases hn with ⟨m, hm, rfl⟩ | rfl
  · exact shiftStep_path_ne _ _ _ (h m hm)
  · simp

/-- Re-rooting a subtree under a stored target (nonempty path) never
creates a root: moved rows land at depth at least 2 and shifted rows keep
their depth. -/
theorem rootCount_movedState_le (s : TreeState) (n tgt : NodeRec)
    (htgt : tgt.path ≠ []) :
    rootCount (movedState s n tgt) ≤ rootCount s := by
  have htl : tgt.path.length ≠ 0 := fun hc => htgt (List.length_eq_zero.mp hc)
  unfold rootCount movedState
  apply countRoots_map_le
  intro m _ hroot
  by_cases hp : n.path.isPrefixOf m.path = true
  · exfalso
    simp only [hp, if_true] at hroot
    simp only [List.length_append, List.length_cons, List.length_nil, beq_iff_eq] at hroot
    omega
  · simp only [hp] at hroot
    simp only [Bool.false_eq_true, if_false] at hroot
    rwa [shiftStep_path_length] at hroot

/-- Re-rooting keeps every path nonempty. -/
theorem pathsWF_movedState (s : TreeState) (n tgt : NodeRec)
    (h : pathsWF s) : pathsWF (movedState s n tgt) := by
  intro m hm
  unfold movedState at hm
  simp only [List.mem_map] at hm
  obtain ⟨a, ha, rfl⟩ := hm
  by_cases hp : n.path.isPrefixOf a.path = true
  · simp [hp]
  · simp only [hp, Bool.false_eq_true, if_false]
    exact shiftStep_path_ne _ _ _ (h a ha)


/-- Unfolding of `NodeForm.save` with `commit=False`. -/
theorem nodeForm_save_nocommit (s : TreeState) (instId : Option Nat)
    (nm als : String) (parent : Option Nat) :
    nodeForm_save s instId nm als parent false = (s, SaveRet.unsaved nm als) := by
  simp [nodeForm_save]

/-- Unfolding of `NodeForm.save(commit=True)` on a fresh instance. -/
theorem nodeForm_save_create (s : TreeState) (nm als : String) (parent : Option Nat) :
    nodeForm_save s none nm als parent true =
      (if (s.nodes.length == 0) = true then
        ((sortedInsert s [] nm als 0).1, SaveRet.saved (sortedInsert s [] nm als 0).2)
      else
        match parent.bind (findNode s) with
        | none => (s, SaveRet.failedWith "AttributeError")
        | some pr =>
          ((sortedInsert s pr.path nm als 0).1,
           SaveRet.saved (sortedInsert s pr.path nm als 0).2)) := by
  simp only [nodeForm_save, Bool.not_true]
  rfl

/-- Unfolding of `NodeForm.save(commit=True)` on a stale id. -/
theorem nodeForm_save_edit_missing (s : TreeState) (i : Nat)
    (nm als : String) (parent : Option Nat) (h : findNode s i = none) :
    nodeForm_save s (some i) nm als parent true = (s, SaveRet.failedWith "DoesNotExist") := by
  simp only [nodeForm_save, h, Bool.not_true]
  rfl

/-- Every accepted `move(pos='sorted-child')` leaves the state alone (the
childless first-sibling self-target) or re-roots the node's subtree under
the target's path. -/
theorem moveSortedChild_ok_cases (s : TreeState) (n tgt : NodeRec) (s2 : TreeState)
    (h : moveSortedChild s n tgt = Except.ok s2) :
    s2 = s ∨ s2 = movedState s n tgt := by
  unfold moveSortedChild at h
  by_cases h1 : tgt.path = n.path
  · rw [if_pos h1] at h
    by_cases h2 : (childrenOf s n.path).length ≠ 0
    · rw [if_pos h2] at h
      exact absurd h (by simp)
    · rw [if_neg h2] at h
      by_cases h3 : isFirstSibling s n = true
      · rw [if_pos h3] at h
        exact Or.inl (Except.ok.inj h).symm
      · rw [if_neg h3] at h
        exact Or.inr (Except.ok.inj h).symm
  · rw [if_neg h1] at h
    by_cases h4 : n.path.isPrefixOf tgt.path = true
    · rw [if_pos h4] at h
      exact absurd h (by simp)
    · rw [if_neg h4] at h
      exact Or.inr (Except.ok.inj h).symm

/-- One `NodeForm.save` call keeps paths nonempty and never pushes the
root count above one: a root is only inserted into the empty table, every
other creation lands under a stored parent, and a move lands under a
stored target. -/
theorem applySave_preserves (s : TreeState) (op : SaveOp)
    (hwf : pathsWF s) (hrc : rootCount s ≤ 1) :
    pathsWF (applySave s op) ∧ rootCount (applySave s op) ≤ 1 := by
  obtain ⟨instId, nm, als, parent, commit⟩ := op
  simp only [applySave]
  cases commit with
  | false =>
    rw [nodeForm_save_nocommit]
    exact ⟨hwf, hrc⟩
  | true =>
    cases instId with
    | none =>
      rw [nodeForm_save_create]
      by_cases h0 : (s.nodes.length == 0) = true
      · have hnil : s.nodes = [] := List.length_eq_zero.mp (by simpa using h0)
        rw [if_pos h0]
        exact ⟨pathsWF_sortedInsert s [] nm als 0 hwf,
          le_of_eq (rootCount_sortedInsert_empty s nm als 0 hnil)⟩
      · rw [if_neg h0]
        cases hb : parent.bind (findNode s) with
        | none => exact ⟨hwf, hrc⟩
        | some pr =>
          have hpr : pr ∈ s.nodes := by
            cases parent with
            | none => simp at hb
            | some pid =>
              simp only [Option.some_bind] at hb
              unfold findNode at hb
              exact List.mem_of_find?_eq_some hb
          have hppne : pr.path ≠ [] := hwf pr hpr
          exact ⟨pathsWF_sortedInsert s pr.path nm als 0 hwf,
            le_trans (le_of_eq (rootCount_sortedInsert_nonroot s pr.path nm als 0 hppne)) hrc⟩
    | some i =>
      cases hfi : findNode s i with
      | none =>
        rw [nodeForm_save_edit_missing s i nm als parent hfi]
        exact ⟨hwf, hrc⟩
      | some n0 =>
        rw [nodeForm_save_edit s i n0 nm als parent hfi]
        have hwf1 : pathsWF (updateFields s i nm als) := pathsWF_updateFields s i nm als hwf
        have hrc1 : rootCount (updateFields s i nm als) ≤ 1 :=
          le_trans (le_of_eq (rootCount_updateFields s i nm als)) hrc
        by_cases hsame :
            (get_parent_id (updateFields s i nm als) (editedRec n0 nm als) == parent) = true
        · rw [if_pos hsame]
          exact ⟨hwf1, hrc1⟩
        · rw [if_neg hsame]
          split
          · exact ⟨hwf1, hrc1⟩
          · next tgt hb =>
            have htgt : tgt ∈ (updateFields s i nm als).nodes := by
              cases parent with
              | none => simp at hb
              | some pid =>
                simp only [Option.some_bind] at hb
                unfold findNode at hb
                exact List.mem_of_find?_eq_some hb
            have htne : tgt.path ≠ [] := hwf1 tgt htgt
            split
            · exact ⟨hwf1, hrc1⟩
            · next s2 hmv =>
              rcases moveSortedChild_ok_cases _ _ _ _ hmv with rfl | rfl
              · exact ⟨hwf1, hrc1⟩
              · exact ⟨pathsWF_movedState _ _ _ hwf1,
                  le_trans (rootCount_movedState_le _ _ _ htne) hrc1⟩

/-- C6: starting from a well-formed store with exactly one root, no
sequence of `NodeForm.save` calls (create or edit, committed or not) can
produce a second root: the root count stays at most one. -/
theorem C6_single_root_preserved (s : TreeState) (ops : List SaveOp)
    (hwf : pathsWF s) (hrc : rootCount s = 1) :
    rootCount (applySaves s ops) ≤ 1 := by
  have haux : ∀ (l : List SaveOp) (t : TreeState), pathsWF t → rootCount t ≤ 1 →
      pathsWF (applySaves t l) ∧ rootCount (applySaves t l) ≤ 1 := by
    intro l
    induction l with
    | nil =>
      intro t hw hr
      exact ⟨hw, hr⟩
    | cons op rest ih =>
      intro t hw hr
      have h1 := applySave_preserves t op hw hr
      simpa [applySaves, List.foldl_cons] using ih (applySave t op) h1.1 h1.2
  exact (haux ops s hwf (le_of_eq hrc)).2

/-- Witness for C6: a create, a non-committed edit and a reparenting edit
on the two-node tree leave at most one root. -/
theorem C6_single_root_preserved_witness :
    rootCount (applySaves exState
      [{ instId := none, nm := "Banana", als := "", parent := some 1, commit := true },
       { instId := some 2, nm := "Apple", als := "", parent := some 1, commit := false },
       { instId := some 2, nm := "Apple", als := "red or green", parent := some 3, commit := true }]) ≤ 1 :=
  C6_single_root_preserved exState _ (by unfold pathsWF; decide) (by decide)
